import Mathlib

/-!
Verification development for the MangoNeado conveyor-belt labeling system.

The C sources under `src/` are shallowly embedded below:

* `common.h` — the `MangoState` / `RobotState` enums and the `Mango` /
  `Robot` record fields that the coordination logic reads and writes, plus
  the helpers `random_range`, `random_int` and the squared form of
  `distance` (the source compares `sqrt s < m` with `m ≥ 0`, which is
  equivalent to `s < m ^ 2`, so the embedding compares squared distances
  and stays executable over `ℚ`).
* `robot_controller.c` — `try_claim_mango`, `calculate_effective_time`,
  `calculate_required_robots`, `activate_backup_robot`, `init_robots`.
* `simulator.c` — `init_simulation` / `run_single_simulation`: the initial
  failure pass, the per-box station capacity, and the sequential batch
  allocation loop; `generate_all_boxes` shares its logic with
  `vision_system.c`'s `generate_box`, embedded once.
* `analysis.c` — `robot_thread`'s claim/label critical sections, embedded
  together with `robot_controller.c`'s live protocol as the transition
  system `LiveStep`.

C `double` arithmetic is idealized as exact rational arithmetic; `(int)`
casts on nonnegative values are truncation toward zero (`cTrunc`); `rand()`
streams are abstract draw streams valued in `[0, 1]` (for
`rand() / RAND_MAX`) or `ℕ` (for `rand() % k`).
-/

namespace MangoNeado

/-- Mango states, from `common.h` (`MANGO_UNLABELED`, `MANGO_BEING_LABELED`,
`MANGO_LABELED`). -/
inductive MangoState where
  | unlabeled
  | beingLabeled
  | labeled
deriving DecidableEq, Repr

/-- Robot states, from `common.h` (`ROBOT_STATE_*`). -/
inductive RobotState where
  | idle
  | active
  | labeling
  | returning
  | disabled
  | failed
  | backup
deriving DecidableEq, Repr

/-- The robot fields read or written by the embedded coordination logic
(`common.h` struct `Robot`; fields not touched by the claims, such as
`last_action_time` and `failure_probability`, are omitted). -/
structure Robot where
  id : ℕ
  axis : ℚ
  state : RobotState
  isBackup : Bool
  hasFailed : Bool
  replacing : ℤ
  labelsPlaced : ℕ
deriving DecidableEq, Repr

/-- Default used for out-of-range array reads; the C arrays are fixed-size,
so theorems carry explicit length hypotheses and in-range reads never see
this value. -/
def defaultRobot : Robot :=
  { id := 0, axis := 0, state := .idle, isBackup := false, hasFailed := false
    replacing := -1, labelsPlaced := 0 }

/-- Read `robots[i]` (C array indexing; in-range under the theorems'
length hypotheses). -/
def rget (robots : List Robot) (i : ℕ) : Robot :=
  robots.getD i defaultRobot

/-- MAX_MANGOS_PER_BOX from `common.h`. -/
def MAX_MANGOS_PER_BOX : ℕ := 100

/-- Truncation toward zero of a rational, the semantics of C's `(int)`
cast on a `double` value. -/
def cTrunc (q : ℚ) : ℤ :=
  if 0 ≤ q then ⌊q⌋ else -⌊-q⌋

/- List indexing helper lemmas. -/

theorem getD_set_self {α : Type} (l : List α) (i : ℕ) (a d : α)
    (h : i < l.length) : (l.set i a).getD i d = a := by
  induction l generalizing i with
  | nil => simp at h
  | cons x xs ih =>
    cases i with
    | zero => simp
    | succ j =>
      simp only [List.set, List.getD_cons_succ]
      exact ih j (by simpa using h)

theorem getD_set_of_ne {α : Type} (l : List α) {i j : ℕ} (a d : α)
    (h : i ≠ j) : (l.set i a).getD j d = l.getD j d := by
  induction l generalizing i j with
  | nil => simp
  | cons x xs ih =>
    cases i with
    | zero =>
      cases j with
      | zero => exact absurd rfl h
      | succ k => simp
    | succ i' =>
      cases j with
      | zero => simp
      | succ k =>
        simp only [List.set, List.getD_cons_succ]
        exact ih (by omega)

/-! ## Claim protocol (`robot_controller.c`, `try_claim_mango`)

The state touched by `try_claim_mango` under `g_mango_mutex`: the mango
state array of `g_current_box`, the per-mango owner field
`labeled_by_robot`, and the shared lock table `g_shm->mango_lock`. -/

/-- The per-box state read and written by the claim protocol. -/
structure ClaimCtx where
  mangoStates : List MangoState
  mangoOwner : List ℤ
  mangoLock : List ℤ
deriving DecidableEq, Repr

/-- Shallow embedding of `try_claim_mango` (robot_controller.c:197-218).
Returns the C result (`0` got the mango, `-1` already taken or out of
range) together with the post state. -/
def try_claim_mango (robotId : ℕ) (mangoId : ℤ) (c : ClaimCtx) :
    ℤ × ClaimCtx :=
  if mangoId < 0 ∨ (MAX_MANGOS_PER_BOX : ℤ) ≤ mangoId then (-1, c)
  else
    let i := mangoId.toNat
    if c.mangoStates.getD i .unlabeled ≠ .unlabeled then (-1, c)
    else
      (0, { c with
              mangoStates := c.mangoStates.set i .beingLabeled
              mangoLock := c.mangoLock.set i (robotId : ℤ) })

/-- Sequential serialization of `N` racing claim attempts on one item:
under `g_mango_mutex` the critical sections of concurrent agents are
atomic, so any interleaving is some order of these calls. Returns the
number of attempts that returned `0` (successes), the number that
returned `-1` (failures), and the final state. -/
def claimRace (mangoId : ℤ) (agents : List ℕ) (c : ClaimCtx) :
    ℕ × ℕ × ClaimCtx :=
  match agents with
  | [] => (0, 0, c)
  | a :: rest =>
    let r := try_claim_mango a mangoId c
    let t := claimRace mangoId rest r.2
    if r.1 = 0 then (t.1 + 1, t.2.1, t.2.2) else (t.1, t.2.1 + 1, t.2.2)

/-! ## Zone planner formulas (`robot_controller.c` / `simulator.c`)

`calculate_required_robots` (robot_controller.c:133-152) derives an
items-per-robot capacity; `run_single_simulation` (simulator.c:189-194)
derives the batch `mangos_per_station` capacity. Both clamp to a minimum
of 1 after an `(int)` cast of a positive quotient. -/

/-- The §4.2 per-robot capacity from `calculate_required_robots`:
`time_per_robot = robot_spacing / X`, `time_per_label = (Z/3) / robot_speed`,
`mangos_per_robot = (int)(time_per_robot / time_per_label)` clamped to 1. -/
def mangos_per_robot_required (spacing X Z robotSpeed : ℚ) : ℤ :=
  max 1 (cTrunc ((spacing / X) / ((Z / 3) / robotSpeed)))

/-- The batch estimator's per-station capacity from `run_single_simulation`:
`effective_time = (W / num_robots) / X`,
`avg_time_per_mango = Z / robot_speed / 1.5`,
`mangos_per_station = (int)(effective_time / avg_time_per_mango)` clamped
to 1. -/
def mangos_per_station (spacing X Z robotSpeed : ℚ) : ℤ :=
  max 1 (cTrunc ((spacing / X) / (Z / robotSpeed / (3 / 2))))

/-- Robot roster built by `init_robots` (robot_controller.c:536-586; the
loop in `simulator.c`'s `init_simulation` and `analysis.c`'s `init_robots`
is identical): main robot `i < numRobots` gets axis `(i + 0.5) * (W /
numRobots)` and state Idle; backups get axis `0`, state Disabled. -/
def init_robots (numRobots numBackup : ℕ) (W : ℚ) : List Robot :=
  (List.range (numRobots + numBackup)).map fun i =>
    if i < numRobots then
      { id := i, axis := ((i : ℚ) + 1 / 2) * (W / (numRobots : ℚ))
        state := .idle, isBackup := false, hasFailed := false
        replacing := -1, labelsPlaced := 0 }
    else
      { id := i, axis := 0, state := .disabled, isBackup := true
        hasFailed := false, replacing := -1, labelsPlaced := 0 }

/-- Shallow embedding of `calculate_effective_time`
(robot_controller.c:157-164): the next axis is `robots[id+1].axis` when
`id + 1 < g_num_robots` (the total roster size, backups included),
otherwise the belt length `W`. -/
def calculate_effective_time (robots : List Robot) (W X : ℚ)
    (robotId : ℕ) : ℚ :=
  let robotAxis := (rget robots robotId).axis
  let nextAxis :=
    if robotId + 1 < robots.length then (rget robots (robotId + 1)).axis
    else W
  (nextAxis - robotAxis) / X

/-! ## Backup activation (`robot_controller.c:290-309`,
`simulator.c:165-175`) -/

/-- Scan a roster suffix for the first robot with `is_backup` set and
state Disabled, returning its offset within the suffix. -/
def findDisabledBackup : List Robot → Option ℕ
  | [] => none
  | r :: rs =>
    if r.isBackup = true ∧ r.state = .disabled then some 0
    else (findDisabledBackup rs).map (· + 1)

/-- Common body of the two backup-activation sites: scan indices
`numRobots ≤ i < robots.length` in ascending order; at the first disabled
backup set its state to Backup, record `replacing` and copy the failed
robot's axis, and bump the activation counter; otherwise change nothing. -/
def backupScan (numRobots : ℕ) (failedId : ℤ) (failedAxis : ℚ)
    (robots : List Robot) (acts : ℕ) : List Robot × ℕ :=
  match findDisabledBackup (robots.drop numRobots) with
  | none => (robots, acts)
  | some j =>
    let i := numRobots + j
    (robots.set i
        { rget robots i with
            state := .backup, replacing := failedId, axis := failedAxis },
      acts + 1)

/-- Shallow embedding of `activate_backup_robot`
(robot_controller.c:290-309): the failed robot's axis is read back from
the roster at `failedRobotId`. -/
def activate_backup_robot (numRobots failedRobotId : ℕ)
    (robots : List Robot) (acts : ℕ) : List Robot × ℕ :=
  backupScan numRobots (failedRobotId : ℤ) (rget robots failedRobotId).axis
    robots acts

/-! ## Batch estimator allocation (`simulator.c:185-232`) -/

/-- The mango fields the batch loop touches: `state` and
`labeled_by_robot`. -/
structure BMango where
  state : MangoState
  labeledBy : ℤ
deriving DecidableEq, Repr

/-- Mango state at array index `i` (out-of-range reads behave as a fresh
unlabeled slot, matching the zeroed C array tail). -/
def mstate (ms : List BMango) (i : ℕ) : MangoState :=
  (ms.getD i { state := .unlabeled, labeledBy := -1 }).state

/-- One robot's station visit (simulator.c:208-217): walk the mango array
in index order and label unclaimed mangos until the station capacity `cap`
is exhausted. Returns the updated array and the number labeled. -/
def labelScan (robotId : ℕ) : ℕ → List BMango → List BMango × ℕ
  | _, [] => ([], 0)
  | cap, m :: rest =>
    if cap = 0 then (m :: rest, 0)
    else if m.state = .unlabeled then
      let t := labelScan robotId (cap - 1) rest
      ({ state := .labeled, labeledBy := (robotId : ℤ) } :: t.1, t.2 + 1)
    else
      let t := labelScan robotId cap rest
      (m :: t.1, t.2)

/-- The batch per-box robot loop (simulator.c:197-223): visit robots in
ascending index order, skip those Disabled or failed, let each visited
active robot label up to `station` mangos, and stop as soon as
`labeled_count ≥ num_mangos`. Returns the final mango array, the final
`labeled_count`, and the number of visited robots that were neither
Disabled nor failed. -/
def processBoxRobots (numMangos station : ℕ) :
    List Robot → List BMango → ℕ → List BMango × ℕ × ℕ
  | [], ms, lc => (ms, lc, 0)
  | r :: rs, ms, lc =>
    if r.state = .disabled ∨ r.hasFailed = true then
      processBoxRobots numMangos station rs ms lc
    else
      let t := labelScan r.id station ms
      let lc' := lc + t.2
      if numMangos ≤ lc' then (t.1, lc', 1)
      else
        let u := processBoxRobots numMangos station rs t.1 lc'
        (u.1, u.2.1, u.2.2 + 1)

/-! ## Initial failure pass (`simulator.c:153-177`) -/

/-- The two assignments a failing robot receives
(`robot->has_failed = true; robot->state = ROBOT_STATE_FAILED`). -/
def markFailed (r : Robot) : Robot :=
  { id := r.id, axis := r.axis, state := .failed, isBackup := r.isBackup
    hasFailed := true, replacing := r.replacing
    labelsPlaced := r.labelsPlaced }

/-- The failure loop body applied to main-robot indices `i`, `i+1`, ...,
`numRobots - 1` (simulator.c:155-176): skip backups; otherwise consume a
draw `r = rand()/RAND_MAX`; on `r < failureProb` latch `has_failed`, set
state Failed, count the failure, and run the inline backup-activation
scan. `d` is the position in the draw stream; the first argument is the
remaining iteration count (the C `for` loop runs exactly `numRobots`
iterations, so the caller passes `numRobots` with `i = 0`). -/
def failLoop (failureProb : ℚ) (draws : ℕ → ℚ) (numRobots : ℕ) :
    ℕ → ℕ → ℕ → List Robot → ℕ → ℕ → List Robot × ℕ × ℕ
  | 0, _, _, robots, fails, acts => (robots, fails, acts)
  | fuel + 1, i, d, robots, fails, acts =>
    if i < numRobots then
      if (rget robots i).isBackup = true then
        failLoop failureProb draws numRobots fuel (i + 1) d robots fails acts
      else if draws d < failureProb then
        failLoop failureProb draws numRobots fuel (i + 1) (d + 1)
          (backupScan numRobots ((rget robots i).id : ℤ) (rget robots i).axis
            (robots.set i (markFailed (rget robots i))) acts).1
          (fails + 1)
          (backupScan numRobots ((rget robots i).id : ℤ) (rget robots i).axis
            (robots.set i (markFailed (rget robots i))) acts).2
      else
        failLoop failureProb draws numRobots fuel (i + 1) (d + 1) robots
          fails acts
    else (robots, fails, acts)

/-- Shallow embedding of the initial failure pass of
`run_single_simulation` (simulator.c:153-177): the whole pass is guarded
by `failure_prob > 0`. Returns the roster, `result.robot_failures`, and
`result.backup_activations`. -/
def failure_phase (failureProb : ℚ) (draws : ℕ → ℚ) (numRobots : ℕ)
    (robots : List Robot) : List Robot × ℕ × ℕ :=
  if 0 < failureProb then
    failLoop failureProb draws numRobots numRobots 0 0 robots 0 0
  else (robots, 0, 0)

/-! ## Box generator (`vision_system.c:109-164`, `simulator.c:59-100`,
`analysis.c:49-86` — the three copies share one algorithm) -/

/-- `random_range` from `common.h`: `min + (rand()/RAND_MAX) * (max - min)`
with the normalized draw `r` passed explicitly. -/
def randomRange (lo hi r : ℚ) : ℚ := lo + r * (hi - lo)

/-- `random_int` from `common.h`: `min + rand() % (max - min + 1)` with
the raw draw `k` passed explicitly. -/
def random_int (lo hi k : ℕ) : ℕ := lo + k % (hi - lo + 1)

/-- Squared Euclidean distance; the source computes
`distance = sqrt(...)` and only compares it against the nonnegative
separation `m`, and `sqrt s < m ↔ s < m ^ 2` for `0 ≤ m`, so the
embedding compares squares. -/
def sqDist (x1 y1 x2 y2 : ℚ) : ℚ := (x2 - x1) ^ 2 + (y2 - y1) ^ 2

/-- One generated mango position together with the rejection-sampling
outcome (`valid = false` exactly when all 100 attempts were too close to
an earlier mango and the last sample was kept). -/
structure PMango where
  x : ℚ
  y : ℚ
  valid : Bool
deriving DecidableEq, Repr

/-- The inner validity check of the rejection loop: the candidate is valid
when no previously placed mango is strictly closer than the minimum
separation. -/
def posValid (minSepSq x y : ℚ) (placed : List (ℚ × ℚ)) : Bool :=
  placed.all fun p => decide (¬ sqDist x y p.1 p.2 < minSepSq)

/-- The rejection-sampling loop for one mango
(vision_system.c:140-155): sample `(x, y)` uniformly in `[lo, hi]²`,
accept on validity, give up after the attempt budget is spent and keep
the last sample. `idx` is the position in the draw stream; the budget is
instantiated with 100 at the call site. Returns `(x, y, valid, idx')`. -/
def sampleAttempts (lo hi minSepSq : ℚ) (rng : ℕ → ℚ)
    (placed : List (ℚ × ℚ)) : ℕ → ℕ → ℚ × ℚ × Bool × ℕ
  | idx, 0 => (lo, lo, false, idx)
  | idx, fuel + 1 =>
    let x := randomRange lo hi (rng idx)
    let y := randomRange lo hi (rng (idx + 1))
    if posValid minSepSq x y placed then (x, y, true, idx + 2)
    else if fuel = 0 then (x, y, false, idx + 2)
    else sampleAttempts lo hi minSepSq rng placed (idx + 2) fuel

/-- Place `k` mangos in order, each rejection-sampled against all
previously placed ones (vision_system.c:127-161). -/
def placeMangos (lo hi minSepSq : ℚ) (rng : ℕ → ℚ) :
    ℕ → ℕ → List PMango → List PMango
  | 0, _, acc => acc
  | k + 1, idx, acc =>
    let s := sampleAttempts lo hi minSepSq rng
      (acc.map fun p => (p.x, p.y)) idx 100
    placeMangos lo hi minSepSq rng k s.2.2.2
      (acc ++ [{ x := s.1, y := s.2.1, valid := s.2.2.1 }])

/-- Shallow embedding of `generate_box` (vision_system.c:109-164):
`num_mangos = random_int(N_min, N_max)`; each mango is sampled within
`[-Z/2 + Z/10, Z/2 - Z/10]²` with minimum separation `Z/15`, 100 attempts.
`k` is the raw draw for `random_int` and `rng` the normalized stream for
`random_range`. Returns the item count and the placed mangos. -/
def generate_box (Z : ℚ) (Nmin Nmax : ℕ) (k : ℕ) (rng : ℕ → ℚ) :
    ℕ × List PMango :=
  let numMangos := random_int Nmin Nmax k
  (numMangos,
    placeMangos (-(Z / 2) + Z / 10) (Z / 2 - Z / 10) ((Z / 15) ^ 2) rng
      numMangos 0 [])

/-! ## Live claim/label transition system
(`robot_controller.c:354-395` and `analysis.c:164-202`)

Each robot thread's interaction with the shared mango array consists of
two kinds of critical section under the box mutex: the claim (test
`MANGO_UNLABELED`, set `MANGO_BEING_LABELED`) which the thread only runs
while holding no mango, and the completion (`label_mango` /
analysis.c:194-198: set `MANGO_LABELED`) which the thread only runs on the
mango it successfully claimed. Any concurrent execution is an
interleaving of these atomic sections. -/

/-- Shared mango array plus each robot's claimed mango
(`robot->current_mango`). -/
structure LiveState where
  mangos : ℕ → MangoState
  holding : ℕ → Option ℕ

/-- Initial state of a fresh box: every mango Unclaimed, no robot holding
a claim. -/
def initLive : LiveState :=
  { mangos := fun _ => .unlabeled, holding := fun _ => none }

/-- The two atomic critical sections of the live protocol. -/
inductive LiveStep : LiveState → LiveState → Prop
  | claim (s : LiveState) (r i : ℕ)
      (hr : s.holding r = none) (hi : s.mangos i = .unlabeled) :
      LiveStep s
        { mangos := Function.update s.mangos i .beingLabeled
          holding := Function.update s.holding r (some i) }
  | finish (s : LiveState) (r i : ℕ) (hr : s.holding r = some i) :
      LiveStep s
        { mangos := Function.update s.mangos i .labeled
          holding := Function.update s.holding r none }

/-- States reachable from a fresh box. -/
inductive LiveReachable : LiveState → Prop
  | init : LiveReachable initLive
  | step {s t : LiveState} :
      LiveReachable s → LiveStep s t → LiveReachable t

/-- The protocol invariant: a held mango is in state Claimed, and no
mango is held by two robots. -/
def LiveInv (s : LiveState) : Prop :=
  (∀ r i, s.holding r = some i → s.mangos i = .beingLabeled) ∧
  (∀ r r' i, s.holding r = some i → s.holding r' = some i → r = r')

/-! ## Theorems -/

/-! ### Claim protocol lemmas -/

theorem tc_out_of_range_eq (robotId : ℕ) (mangoId : ℤ) (c : ClaimCtx)
    (h : mangoId < 0 ∨ (MAX_MANGOS_PER_BOX : ℤ) ≤ mangoId) :
    try_claim_mango robotId mangoId c = (-1, c) := by
  simp only [try_claim_mango]
  rw [if_pos h]

theorem tc_fail_eq (robotId : ℕ) (mangoId : ℤ) (c : ClaimCtx)
    (hst : c.mangoStates.getD mangoId.toNat .unlabeled ≠ .unlabeled) :
    try_claim_mango robotId mangoId c = (-1, c) := by
  by_cases h : mangoId < 0 ∨ (MAX_MANGOS_PER_BOX : ℤ) ≤ mangoId
  · exact tc_out_of_range_eq robotId mangoId c h
  · simp only [try_claim_mango]
    rw [if_neg h, if_pos hst]

theorem tc_success_eq (robotId : ℕ) (mangoId : ℤ) (c : ClaimCtx)
    (h0 : 0 ≤ mangoId) (h1 : mangoId < (MAX_MANGOS_PER_BOX : ℤ))
    (hst : c.mangoStates.getD mangoId.toNat .unlabeled = .unlabeled) :
    try_claim_mango robotId mangoId c =
      (0, { c with
              mangoStates := c.mangoStates.set mangoId.toNat .beingLabeled
              mangoLock := c.mangoLock.set mangoId.toNat (robotId : ℤ) }) := by
  have h : ¬(mangoId < 0 ∨ (MAX_MANGOS_PER_BOX : ℤ) ≤ mangoId) := by omega
  simp only [try_claim_mango]
  rw [if_neg h, if_neg (not_not_intro hst)]

/-- C1: for every box state and every valid item id, `try_claim_mango`
succeeds (returns 0) and transitions the item Unclaimed → Claimed iff the
item's state is currently Unclaimed; on success only that item's state and
lock-table slot change (the owner array is untouched); on failure the
entire state — the item's state, its owner field, the lock table and every
other item — is returned unchanged. -/
theorem try_claim_check_and_set (robotId : ℕ) (mangoId : ℤ) (c : ClaimCtx)
    (h0 : 0 ≤ mangoId) (h1 : mangoId < (MAX_MANGOS_PER_BOX : ℤ))
    (hlen : mangoId.toNat < c.mangoStates.length) :
    ((try_claim_mango robotId mangoId c).1 = 0 ↔
      c.mangoStates.getD mangoId.toNat .unlabeled = .unlabeled) ∧
    (c.mangoStates.getD mangoId.toNat .unlabeled = .unlabeled →
      try_claim_mango robotId mangoId c =
        (0, { c with
                mangoStates := c.mangoStates.set mangoId.toNat .beingLabeled
                mangoLock := c.mangoLock.set mangoId.toNat (robotId : ℤ) }) ∧
      (try_claim_mango robotId mangoId c).2.mangoStates.getD mangoId.toNat
          .unlabeled = .beingLabeled ∧
      (try_claim_mango robotId mangoId c).2.mangoOwner = c.mangoOwner ∧
      ∀ j, j ≠ mangoId.toNat →
        (try_claim_mango robotId mangoId c).2.mangoStates.getD j .unlabeled =
            c.mangoStates.getD j .unlabeled ∧
        (try_claim_mango robotId mangoId c).2.mangoLock.getD j (-1) =
            c.mangoLock.getD j (-1)) ∧
    (c.mangoStates.getD mangoId.toNat .unlabeled ≠ .unlabeled →
      try_claim_mango robotId mangoId c = (-1, c)) := by
  by_cases hst : c.mangoStates.getD mangoId.toNat .unlabeled = .unlabeled
  · have hs := tc_success_eq robotId mangoId c h0 h1 hst
    refine ⟨by rw [hs]; exact iff_of_true rfl hst,
      fun _ => ⟨hs, ?_, by rw [hs], ?_⟩, fun hne => absurd hst hne⟩
    · rw [hs]
      exact getD_set_self _ _ _ _ hlen
    · intro j hj
      rw [hs]
      exact ⟨getD_set_of_ne _ _ _ (fun h => hj h.symm),
        getD_set_of_ne _ _ _ (fun h => hj h.symm)⟩
  · have hf := tc_fail_eq robotId mangoId c hst
    exact ⟨by rw [hf]; exact iff_of_false (by norm_num) hst,
      fun h => absurd h hst, fun _ => hf⟩

/-- Witness for C1 at a concrete input. -/
theorem try_claim_check_and_set_witness :
    (0 ≤ (7 : ℤ) ∧ (7 : ℤ) < (MAX_MANGOS_PER_BOX : ℤ) ∧
      (7 : ℤ).toNat < (List.replicate 100 MangoState.unlabeled).length) ∧
    ((try_claim_mango 3 7
        { mangoStates := List.replicate 100 .unlabeled
          mangoOwner := List.replicate 100 (-1)
          mangoLock := List.replicate 100 (-1) }).1 = 0 ↔
      (List.replicate 100 MangoState.unlabeled).getD (7 : ℤ).toNat
        .unlabeled = .unlabeled) :=
  ⟨⟨by decide, by decide, by decide⟩,
    (try_claim_check_and_set 3 7
      { mangoStates := List.replicate 100 .unlabeled
        mangoOwner := List.replicate 100 (-1)
        mangoLock := List.replicate 100 (-1) }
      (by decide) (by decide) (by decide)).1⟩

/-- C10: claim attempts with an out-of-range item id fail immediately and
return the state untouched (no item state, owner field or lock-table slot
is read or written). -/
theorem try_claim_out_of_range (robotId : ℕ) (mangoId : ℤ) (c : ClaimCtx)
    (h : mangoId < 0 ∨ (MAX_MANGOS_PER_BOX : ℤ) ≤ mangoId) :
    try_claim_mango robotId mangoId c = (-1, c) :=
  tc_out_of_range_eq robotId mangoId c h

/-- Witness for C10 at the concrete out-of-range ids `-5` and `100`. -/
theorem try_claim_out_of_range_witness :
    ((-5 : ℤ) < 0 ∨ (MAX_MANGOS_PER_BOX : ℤ) ≤ -5) ∧
    try_claim_mango 2 (-5)
        { mangoStates := [.unlabeled], mangoOwner := [-1], mangoLock := [-1] } =
      (-1, { mangoStates := [.unlabeled], mangoOwner := [-1],
             mangoLock := [-1] }) ∧
    try_claim_mango 2 100
        { mangoStates := [.unlabeled], mangoOwner := [-1], mangoLock := [-1] } =
      (-1, { mangoStates := [.unlabeled], mangoOwner := [-1],
             mangoLock := [-1] }) :=
  ⟨Or.inl (by decide),
    try_claim_out_of_range 2 (-5) _ (Or.inl (by decide)),
    try_claim_out_of_range 2 100 _ (Or.inr (by decide))⟩

theorem claimRace_claimed_eq (mangoId : ℤ) (agents : List ℕ) (c : ClaimCtx)
    (hst : c.mangoStates.getD mangoId.toNat .unlabeled ≠ .unlabeled) :
    claimRace mangoId agents c = (0, agents.length, c) := by
  induction agents with
  | nil => rfl
  | cons a rest ih =>
    simp only [claimRace, tc_fail_eq a mangoId c hst, ih]
    norm_num

/-- C2: when `N ≥ 1` agents race the claim protocol on a single Unclaimed
item, any serialization of their atomic claim sections yields exactly one
success and `N - 1` failures, and leaves the item Claimed. -/
theorem claim_race_exactly_one (mangoId : ℤ) (agents : List ℕ) (c : ClaimCtx)
    (h0 : 0 ≤ mangoId) (h1 : mangoId < (MAX_MANGOS_PER_BOX : ℤ))
    (hlen : mangoId.toNat < c.mangoStates.length)
    (hst : c.mangoStates.getD mangoId.toNat .unlabeled = .unlabeled)
    (hne : agents ≠ []) :
    (claimRace mangoId agents c).1 = 1 ∧
    (claimRace mangoId agents c).2.1 = agents.length - 1 ∧
    (claimRace mangoId agents c).2.2.mangoStates.getD mangoId.toNat
        .unlabeled = .beingLabeled := by
  match agents with
  | [] => exact absurd rfl hne
  | a :: rest =>
    have hs := tc_success_eq a mangoId c h0 h1 hst
    have hclaimed :
        (c.mangoStates.set mangoId.toNat .beingLabeled).getD mangoId.toNat
          .unlabeled = .beingLabeled := getD_set_self _ _ _ _ hlen
    have hne' :
        ({ c with
            mangoStates := c.mangoStates.set mangoId.toNat .beingLabeled
            mangoLock := c.mangoLock.set mangoId.toNat (a : ℤ) } :
          ClaimCtx).mangoStates.getD mangoId.toNat .unlabeled ≠
          .unlabeled := by
      show (c.mangoStates.set mangoId.toNat .beingLabeled).getD
          mangoId.toNat .unlabeled ≠ .unlabeled
      rw [hclaimed]
      decide
    have hrest := claimRace_claimed_eq mangoId rest
      { c with
          mangoStates := c.mangoStates.set mangoId.toNat .beingLabeled
          mangoLock := c.mangoLock.set mangoId.toNat (a : ℤ) } hne'
    simp only [claimRace, hs, hrest]
    refine ⟨by norm_num, by norm_num, ?_⟩
    simpa using hclaimed

/-- Witness for C2: three agents race item 7 of a fresh 100-item box. -/
theorem claim_race_exactly_one_witness :
    (0 ≤ (7 : ℤ) ∧ (7 : ℤ) < (MAX_MANGOS_PER_BOX : ℤ) ∧
      (7 : ℤ).toNat < (List.replicate 100 MangoState.unlabeled).length ∧
      ([4, 5, 6] : List ℕ) ≠ []) ∧
    (claimRace 7 [4, 5, 6]
        { mangoStates := List.replicate 100 .unlabeled
          mangoOwner := List.replicate 100 (-1)
          mangoLock := List.replicate 100 (-1) }).1 = 1 ∧
    (claimRace 7 [4, 5, 6]
        { mangoStates := List.replicate 100 .unlabeled
          mangoOwner := List.replicate 100 (-1)
          mangoLock := List.replicate 100 (-1) }).2.1 =
      ([4, 5, 6] : List ℕ).length - 1 :=
  ⟨⟨by decide, by decide, by decide, by decide⟩,
    (claim_race_exactly_one 7 [4, 5, 6] _ (by decide) (by decide) (by decide)
      (by decide) (by decide)).1,
    (claim_race_exactly_one 7 [4, 5, 6] _ (by decide) (by decide) (by decide)
      (by decide) (by decide)).2.1⟩

/-! ### Live protocol invariant and state ordering -/

theorem liveInv_step {s t : LiveState} (hs : LiveInv s) (h : LiveStep s t) :
    LiveInv t := by
  obtain ⟨hold, huniq⟩ := hs
  cases h with
  | claim r i hr hi =>
    refine ⟨?_, ?_⟩
    · intro r' i' h'
      dsimp only at h' ⊢
      by_cases hrr : r' = r
      · subst hrr
        rw [Function.update_same] at h'
        obtain rfl : i = i' := Option.some.inj h'
        rw [Function.update_same]
      · rw [Function.update_noteq hrr] at h'
        have hb := hold r' i' h'
        have hii : i' ≠ i := fun hEq => by
          rw [hEq, hi] at hb
          exact MangoState.noConfusion hb
        rw [Function.update_noteq hii]
        exact hb
    · intro r1 r2 i' h1 h2
      dsimp only at h1 h2
      by_cases h1r : r1 = r <;> by_cases h2r : r2 = r
      · rw [h1r, h2r]
      · subst h1r
        rw [Function.update_same] at h1
        obtain rfl : i = i' := Option.some.inj h1
        rw [Function.update_noteq h2r] at h2
        have hb := hold r2 i h2
        rw [hi] at hb
        exact MangoState.noConfusion hb
      · subst h2r
        rw [Function.update_same] at h2
        obtain rfl : i = i' := Option.some.inj h2
        rw [Function.update_noteq h1r] at h1
        have hb := hold r1 i h1
        rw [hi] at hb
        exact MangoState.noConfusion hb
      · rw [Function.update_noteq h1r] at h1
        rw [Function.update_noteq h2r] at h2
        exact huniq r1 r2 i' h1 h2
  | finish r i hr =>
    refine ⟨?_, ?_⟩
    · intro r' i' h'
      dsimp only at h' ⊢
      by_cases hrr : r' = r
      · subst hrr
        rw [Function.update_same] at h'
        exact Option.noConfusion h'
      · rw [Function.update_noteq hrr] at h'
        have hb := hold r' i' h'
        have hii : i' ≠ i := fun hEq => hrr (huniq r' r i' h' (hEq ▸ hr))
        rw [Function.update_noteq hii]
        exact hb
    · intro r1 r2 i' h1 h2
      dsimp only at h1 h2
      by_cases h1r : r1 = r
      · subst h1r
        rw [Function.update_same] at h1
        exact Option.noConfusion h1
      · by_cases h2r : r2 = r
        · subst h2r
          rw [Function.update_same] at h2
          exact Option.noConfusion h2
        · rw [Function.update_noteq h1r] at h1
          rw [Function.update_noteq h2r] at h2
          exact huniq r1 r2 i' h1 h2

theorem liveInv_reachable {s : LiveState} (h : LiveReachable s) : LiveInv s := by
  induction h with
  | init =>
    refine ⟨?_, ?_⟩
    · intro r i h
      simp [initLive] at h
    · intro r r' i h h'
      simp [initLive] at h
  | step _ hstep ih => exact liveInv_step ih hstep

theorem labelScan_item (rid : ℕ) (cap : ℕ) (ms : List BMango) (i : ℕ) :
    mstate (labelScan rid cap ms).1 i = mstate ms i ∨
    (mstate ms i = .unlabeled ∧
      mstate (labelScan rid cap ms).1 i = .labeled) := by
  induction ms generalizing cap i with
  | nil => left; rfl
  | cons m rest ih =>
    by_cases hcap : cap = 0
    · subst hcap; left; rfl
    · by_cases hm : m.state = .unlabeled
      · simp only [labelScan, if_neg hcap, if_pos hm]
        cases i with
        | zero =>
          right
          exact ⟨by simpa [mstate] using hm, by simp [mstate]⟩
        | succ j =>
          simpa [mstate, List.getD_cons_succ] using ih (cap - 1) j
      · simp only [labelScan, if_neg hcap, if_neg hm]
        cases i with
        | zero => left; simp [mstate]
        | succ j =>
          simpa [mstate, List.getD_cons_succ] using ih cap j

theorem processBoxRobots_item (n station : ℕ) (robots : List Robot)
    (ms : List BMango) (lc i : ℕ) :
    mstate (processBoxRobots n station robots ms lc).1 i = mstate ms i ∨
    (mstate ms i = .unlabeled ∧
      mstate (processBoxRobots n station robots ms lc).1 i = .labeled) := by
  induction robots generalizing ms lc with
  | nil => left; rfl
  | cons r rs ih =>
    by_cases hact : r.state = .disabled ∨ r.hasFailed = true
    · simp only [processBoxRobots, if_pos hact]
      exact ih ms lc
    · simp only [processBoxRobots, if_neg hact]
      by_cases hbrk : n ≤ lc + (labelScan r.id station ms).2
      · rw [if_pos hbrk]
        exact labelScan_item r.id station ms i
      · rw [if_neg hbrk]
        rcases ih (labelScan r.id station ms).1
            (lc + (labelScan r.id station ms).2) with h1 | ⟨h1a, h1b⟩
        · rw [h1]
          exact labelScan_item r.id station ms i
        · rcases labelScan_item r.id station ms i with h2 | ⟨h2a, h2b⟩
          · right
            exact ⟨h2 ▸ h1a, h1b⟩
          · rw [h2b] at h1a
            exact absurd h1a (by decide)

/-- C3 (amended): in the live controller and the analysis simulation —
whose claim/label critical sections are the steps of `LiveStep` — every
per-step item transition is either a stutter, Unclaimed → Claimed, or
Claimed → Labeled, so state histories follow the strict order
Unclaimed → Claimed → Labeled and never go backward. In the batch
estimator, by contrast, every item transition is either a stutter or the
direct jump Unclaimed → Labeled: items never enter the Claimed
(Being-Labeled) state at all, though they still never move backward. -/
theorem label_ordering_models :
    (∀ s t : LiveState, LiveReachable s → LiveStep s t → ∀ j,
        t.mangos j = s.mangos j ∨
        (s.mangos j = .unlabeled ∧ t.mangos j = .beingLabeled) ∨
        (s.mangos j = .beingLabeled ∧ t.mangos j = .labeled)) ∧
    (∀ (n station : ℕ) (robots : List Robot) (ms : List BMango) (lc i : ℕ),
        mstate (processBoxRobots n station robots ms lc).1 i = mstate ms i ∨
        (mstate ms i = .unlabeled ∧
          mstate (processBoxRobots n station robots ms lc).1 i = .labeled)) := by
  constructor
  · intro s t hre hstep j
    have inv := liveInv_reachable hre
    cases hstep with
    | claim r i hr hi =>
      dsimp only
      by_cases hji : j = i
      · subst hji
        right; left
        exact ⟨hi, Function.update_same j _ _⟩
      · left
        exact Function.update_noteq hji _ _
    | finish r i hr =>
      dsimp only
      by_cases hji : j = i
      · subst hji
        right; right
        exact ⟨inv.1 r j hr, Function.update_same j _ _⟩
      · left
        exact Function.update_noteq hji _ _
  · intro n station robots ms lc i
    exact processBoxRobots_item n station robots ms lc i

/-- Counterexample to C3 as stated: in the batch estimator a single robot
visit — whose innermost write (simulator.c:211) is the finest-grained
state change of that execution model — takes an item directly from
Unclaimed to Labeled; the item is never in state Claimed (Being-Labeled)
at any point of the batch execution. -/
theorem batch_direct_label_counterexample :
    mstate [{ state := .unlabeled, labeledBy := -1 }] 0 = .unlabeled ∧
    labelScan 0 1 [{ state := .unlabeled, labeledBy := -1 }] =
      ([{ state := .labeled, labeledBy := 0 }], 1) ∧
    processBoxRobots 1 1 [defaultRobot]
        [{ state := .unlabeled, labeledBy := -1 }] 0 =
      ([{ state := .labeled, labeledBy := 0 }], 1, 1) ∧
    mstate [({ state := .labeled, labeledBy := 0 } : BMango)] 0 = .labeled :=
  ⟨by decide, by decide, by decide, by decide⟩

/-- Witness for the amended C3: a concrete claim step from the initial
state, and a concrete batch step, each instantiating the theorem. -/
theorem label_ordering_models_witness :
    LiveReachable initLive ∧
    LiveStep initLive
      { mangos := Function.update initLive.mangos 0 .beingLabeled
        holding := Function.update initLive.holding 0 (some 0) } ∧
    (({ mangos := Function.update initLive.mangos 0 .beingLabeled
        holding := Function.update initLive.holding 0 (some 0) } :
          LiveState).mangos 0 = initLive.mangos 0 ∨
      (initLive.mangos 0 = .unlabeled ∧
        ({ mangos := Function.update initLive.mangos 0 .beingLabeled
           holding := Function.update initLive.holding 0 (some 0) } :
            LiveState).mangos 0 = .beingLabeled) ∨
      (initLive.mangos 0 = .beingLabeled ∧
        ({ mangos := Function.update initLive.mangos 0 .beingLabeled
           holding := Function.update initLive.holding 0 (some 0) } :
            LiveState).mangos 0 = .labeled)) ∧
    (mstate (processBoxRobots 1 1 [defaultRobot]
          [{ state := .unlabeled, labeledBy := -1 }] 0).1 0 =
        mstate [{ state := .unlabeled, labeledBy := -1 }] 0 ∨
      (mstate [({ state := .unlabeled, labeledBy := -1 } : BMango)] 0 =
          .unlabeled ∧
        mstate (processBoxRobots 1 1 [defaultRobot]
            [{ state := .unlabeled, labeledBy := -1 }] 0).1 0 = .labeled)) :=
  ⟨LiveReachable.init, LiveStep.claim initLive 0 0 rfl rfl,
    label_ordering_models.1 initLive _ LiveReachable.init
      (LiveStep.claim initLive 0 0 rfl rfl) 0,
    label_ordering_models.2 1 1 [defaultRobot]
      [{ state := .unlabeled, labeledBy := -1 }] 0 0⟩

/-! ### Batch allocation: capacity equation and ordering -/

/-- Mango state at a cons cell, head. -/
theorem mstate_cons_zero (m : BMango) (ms : List BMango) :
    mstate (m :: ms) 0 = m.state := rfl

/-- Mango state at a cons cell, tail. -/
theorem mstate_cons_succ (m : BMango) (ms : List BMango) (i : ℕ) :
    mstate (m :: ms) (i + 1) = mstate ms i := rfl

/-- The box is labeled exactly on a prefix of length `c`, with no item in
the transient Claimed state — the shape every batch-mode box keeps. -/
def PrefixLabeled (c : ℕ) (ms : List BMango) : Prop :=
  c ≤ ms.length ∧
  ∀ i, i < ms.length →
    ((mstate ms i = .labeled ↔ i < c) ∧ mstate ms i ≠ .beingLabeled)

theorem prefixLabeled_zero (ms : List BMango)
    (h : ∀ m ∈ ms, m.state = .unlabeled) : PrefixLabeled 0 ms := by
  refine ⟨Nat.zero_le _, ?_⟩
  induction ms with
  | nil => intro i hi; simp at hi
  | cons m rest ih =>
    intro i hi
    cases i with
    | zero =>
      rw [mstate_cons_zero, h m (List.mem_cons_self m rest)]
      exact ⟨by simp, by decide⟩
    | succ j =>
      rw [mstate_cons_succ]
      have H := ih (fun x hx => h x (List.mem_cons_of_mem m hx)) j
        (by simpa using hi)
      refine ⟨?_, H.2⟩
      rw [H.1]
      omega

theorem labelScan_prefix_shape (rid : ℕ) :
    ∀ (ms : List BMango) (cap c : ℕ), PrefixLabeled c ms →
      (labelScan rid cap ms).2 = min cap (ms.length - c) ∧
      (labelScan rid cap ms).1.length = ms.length ∧
      PrefixLabeled (c + (labelScan rid cap ms).2) (labelScan rid cap ms).1 := by
  intro ms
  induction ms with
  | nil =>
    intro cap c h
    have hc : c = 0 := Nat.le_zero.mp h.1
    subst hc
    exact ⟨by simp [labelScan], by simp [labelScan], h⟩
  | cons m rest ih =>
    intro cap c h
    obtain ⟨hcle, hall⟩ := h
    have hhead := hall 0 (Nat.succ_pos _)
    rw [mstate_cons_zero] at hhead
    by_cases hcap : cap = 0
    · subst hcap
      refine ⟨by simp [labelScan], by simp [labelScan], ?_⟩
      simpa [labelScan] using And.intro hcle hall
    · by_cases hm : m.state = .unlabeled
      · have hc0 : c = 0 := by
          by_contra hc
          exact absurd (hhead.1.mpr (Nat.pos_of_ne_zero hc)) (by
            rw [hm]; decide)
        subst hc0
        have hrest : PrefixLabeled 0 rest := by
          refine ⟨Nat.zero_le _, fun i hi => ?_⟩
          have := hall (i + 1) (Nat.succ_lt_succ hi)
          rw [mstate_cons_succ] at this
          exact ⟨by simpa using this.1, this.2⟩
        obtain ⟨h1, h2, h3⟩ := ih (cap - 1) 0 hrest
        simp only [labelScan, if_neg hcap, if_pos hm]
        refine ⟨by simp only [List.length_cons]; omega,
          by simp only [List.length_cons, h2], ?_⟩
        obtain ⟨h3a, h3b⟩ := h3
        refine ⟨by simp only [List.length_cons]; omega, fun i hi => ?_⟩
        cases i with
        | zero =>
          rw [mstate_cons_zero]
          exact ⟨by simp, show MangoState.labeled ≠ .beingLabeled by decide⟩
        | succ j =>
          rw [mstate_cons_succ]
          have hj : j < (labelScan rid (cap - 1) rest).1.length := by
            simp only [List.length_cons] at hi
            omega
          have := h3b j hj
          refine ⟨?_, this.2⟩
          rw [this.1]
          omega
      · have hmlab : m.state = .labeled := by
          cases hms : m.state
          · exact absurd hms hm
          · exact absurd hms (by
              intro hx
              exact hhead.2 hx)
          · rfl
        have hc1 : 1 ≤ c := hhead.1.mp hmlab
        have hrest : PrefixLabeled (c - 1) rest := by
          refine ⟨by simp only [List.length_cons] at hcle; omega,
            fun i hi => ?_⟩
          have := hall (i + 1) (Nat.succ_lt_succ hi)
          rw [mstate_cons_succ] at this
          refine ⟨?_, this.2⟩
          rw [this.1]
          omega
        obtain ⟨h1, h2, h3⟩ := ih cap (c - 1) hrest
        simp only [labelScan, if_neg hcap, if_neg hm]
        refine ⟨by simp only [List.length_cons]; omega,
          by simp only [List.length_cons, h2], ?_⟩
        obtain ⟨h3a, h3b⟩ := h3
        refine ⟨by simp only [List.length_cons]; omega, fun i hi => ?_⟩
        cases i with
        | zero =>
          rw [mstate_cons_zero]
          refine ⟨⟨fun _ => by omega, fun _ => hmlab⟩, by
            rw [hmlab]; decide⟩
        | succ j =>
          rw [mstate_cons_succ]
          have hj : j < (labelScan rid cap rest).1.length := by
            simp only [List.length_cons] at hi
            omega
          have := h3b j hj
          refine ⟨?_, this.2⟩
          rw [this.1]
          omega

theorem labelScan_count_le (rid cap : ℕ) (ms : List BMango) :
    (labelScan rid cap ms).2 ≤ cap := by
  induction ms generalizing cap with
  | nil => simp [labelScan]
  | cons m rest ih =>
    by_cases hcap : cap = 0
    · subst hcap; simp [labelScan]
    · by_cases hm : m.state = .unlabeled
      · simp only [labelScan, if_neg hcap, if_pos hm]
        have := ih (cap - 1)
        omega
      · simp only [labelScan, if_neg hcap, if_neg hm]
        exact ih cap

/-- Number of mangos whose `labeled_by_robot` field records robot `rid`. -/
def countBy (rid : ℕ) (ms : List BMango) : ℕ :=
  ms.countP fun m => decide (m.labeledBy = (rid : ℤ))

theorem countBy_cons (rid : ℕ) (m : BMango) (ms : List BMango) :
    countBy rid (m :: ms) =
      countBy rid ms + (if m.labeledBy = (rid : ℤ) then 1 else 0) := by
  simp [countBy, List.countP_cons]

theorem countBy_eq_zero (rid : ℕ) (ms : List BMango)
    (h : ∀ m ∈ ms, m.labeledBy = -1) : countBy rid ms = 0 := by
  induction ms with
  | nil => rfl
  | cons m rest ih =>
    rw [countBy_cons, ih (fun x hx => h x (List.mem_cons_of_mem m hx))]
    have hm := h m (List.mem_cons_self m rest)
    rw [hm, if_neg (by omega)]

theorem labelScan_countBy (rid rid' cap : ℕ) (ms : List BMango) :
    countBy rid (labelScan rid' cap ms).1 ≤
      countBy rid ms +
        (if rid' = rid then (labelScan rid' cap ms).2 else 0) := by
  induction ms generalizing cap with
  | nil => simp [labelScan]
  | cons m rest ih =>
    by_cases hcap : cap = 0
    · subst hcap
      simp [labelScan]
    · by_cases hm : m.state = .unlabeled
      · simp only [labelScan, if_neg hcap, if_pos hm]
        rw [countBy_cons, countBy_cons]
        dsimp only
        have hih := ih (cap - 1)
        by_cases hr : rid' = rid
        · subst hr
          rw [if_pos rfl] at hih
          rw [if_pos rfl, if_pos rfl]
          split <;> omega
        · rw [if_neg hr] at hih ⊢
          have hcast : ¬((rid' : ℤ) = (rid : ℤ)) := by
            intro hx
            exact hr (Nat.cast_injective hx)
          rw [if_neg hcast]
          split <;> omega
      · simp only [labelScan, if_neg hcap, if_neg hm]
        rw [countBy_cons, countBy_cons]
        have hih := ih cap
        by_cases hr : rid' = rid
        · rw [if_pos hr] at hih ⊢
          split <;> omega
        · rw [if_neg hr] at hih ⊢
          split <;> omega

theorem processBoxRobots_countBy (n station : ℕ) (rid : ℕ) :
    ∀ (robots : List Robot) (ms : List BMango) (lc : ℕ),
      (robots.map Robot.id).Nodup →
      countBy rid (processBoxRobots n station robots ms lc).1 ≤
        countBy rid ms +
          (if rid ∈ robots.map Robot.id then station else 0) := by
  intro robots
  induction robots with
  | nil => intro ms lc _; simp [processBoxRobots]
  | cons r rs ih =>
    intro ms lc hnodup
    rw [List.map_cons, List.nodup_cons] at hnodup
    obtain ⟨hnotin, hnd⟩ := hnodup
    simp only [List.map_cons]
    by_cases hact : r.state = .disabled ∨ r.hasFailed = true
    · simp only [processBoxRobots, if_pos hact]
      have hih := ih ms lc hnd
      by_cases hmem : rid ∈ rs.map Robot.id
      · rw [if_pos hmem] at hih
        rw [if_pos (List.mem_cons_of_mem _ hmem)]
        exact hih
      · rw [if_neg hmem] at hih
        split <;> omega
    · simp only [processBoxRobots, if_neg hact]
      have hscan := labelScan_countBy rid r.id station ms
      have hcap := labelScan_count_le r.id station ms
      by_cases hbrk : n ≤ lc + (labelScan r.id station ms).2
      · rw [if_pos hbrk]
        dsimp only
        by_cases hr : r.id = rid
        · rw [if_pos hr] at hscan
          rw [if_pos (by rw [List.mem_cons, hr]; exact Or.inl rfl)]
          omega
        · rw [if_neg hr] at hscan
          split <;> omega
      · rw [if_neg hbrk]
        dsimp only
        have hih := ih (labelScan r.id station ms).1
          (lc + (labelScan r.id station ms).2) hnd
        by_cases hr : r.id = rid
        · rw [if_pos hr] at hscan
          rw [if_neg (hr ▸ hnotin)] at hih
          rw [if_pos (by rw [List.mem_cons, hr]; exact Or.inl rfl)]
          omega
        · rw [if_neg hr] at hscan
          by_cases hmem : rid ∈ rs.map Robot.id
          · rw [if_pos hmem] at hih
            rw [if_pos (List.mem_cons_of_mem _ hmem)]
            omega
          · rw [if_neg hmem] at hih
            rw [if_neg (by
              rw [List.mem_cons]
              rintro (h | h)
              · exact hr h.symm
              · exact hmem h)]
            omega

theorem process_capacity (station : ℕ) (hst : 1 ≤ station) :
    ∀ (robots : List Robot) (n : ℕ) (ms : List BMango) (c : ℕ),
      n = ms.length → PrefixLabeled c ms →
      (processBoxRobots n station robots ms c).2.1 =
        min n (c + (processBoxRobots n station robots ms c).2.2 * station) ∧
      (processBoxRobots n station robots ms c).1.length = n ∧
      PrefixLabeled (processBoxRobots n station robots ms c).2.1
        (processBoxRobots n station robots ms c).1 := by
  intro robots
  induction robots with
  | nil =>
    intro n ms c hn hpl
    have hcn : c ≤ n := by
      rw [hn]
      exact hpl.1
    dsimp only [processBoxRobots]
    exact ⟨by simp only [Nat.zero_mul, Nat.add_zero]; omega, hn.symm, hpl⟩
  | cons r rs ih =>
    intro n ms c hn hpl
    by_cases hact : r.state = .disabled ∨ r.hasFailed = true
    · simp only [processBoxRobots, if_pos hact]
      exact ih n ms c hn hpl
    · simp only [processBoxRobots, if_neg hact]
      obtain ⟨hk, hlen, hpl'⟩ := labelScan_prefix_shape r.id ms station c hpl
      rw [← hn] at hk
      by_cases hbrk : n ≤ c + (labelScan r.id station ms).2
      · rw [if_pos hbrk]
        dsimp only
        have hc' : c + (labelScan r.id station ms).2 ≤ n := by
          have h1 := hpl'.1
          rw [hlen, ← hn] at h1
          exact h1
        exact ⟨by omega, by rw [hlen, hn], hpl'⟩
      · rw [if_neg hbrk]
        dsimp only
        obtain ⟨ih1, ih2, ih3⟩ := ih n (labelScan r.id station ms).1
          (c + (labelScan r.id station ms).2) (by rw [hlen, hn]) hpl'
        have hfull : (labelScan r.id station ms).2 = station := by omega
        rw [hfull] at ih1 ih2 ih3 ⊢
        refine ⟨?_, ih2, ih3⟩
        rw [ih1, Nat.succ_mul]
        generalize (processBoxRobots n station rs
          (labelScan r.id station ms).1 (c + station)).2.2 * station = B
        omega

/-- With every robot Disabled or failed, the batch loop visits no active
robot and the box's labeled count does not move (simulator.c:201-202). -/
theorem processBoxRobots_skips (n station : ℕ) :
    ∀ (robots : List Robot) (ms : List BMango) (lc : ℕ),
      (∀ r ∈ robots, r.state = .disabled ∨ r.hasFailed = true) →
      processBoxRobots n station robots ms lc = (ms, lc, 0) := by
  intro robots
  induction robots with
  | nil => intro ms lc _; rfl
  | cons r rs ih =>
    intro ms lc h
    simp only [processBoxRobots, if_pos (h r (List.mem_cons_self r rs))]
    exact ih ms lc (fun x hx => h x (List.mem_cons_of_mem r hx))

theorem getD_range_map {α : Type} (f : ℕ → α) (n i : ℕ) (d : α)
    (h : i < n) : ((List.range n).map f).getD i d = f i := by
  rw [List.getD_eq_getElem?_getD, List.getElem?_map, List.getElem?_range h]
  rfl

theorem rget_init_robots (numRobots numBackup : ℕ) (W : ℚ) (i : ℕ)
    (h : i < numRobots + numBackup) :
    rget (init_robots numRobots numBackup W) i =
      if i < numRobots then
        { id := i, axis := ((i : ℚ) + 1 / 2) * (W / (numRobots : ℚ))
          state := .idle, isBackup := false, hasFailed := false
          replacing := -1, labelsPlaced := 0 }
      else
        { id := i, axis := 0, state := .disabled, isBackup := true
          hasFailed := false, replacing := -1, labelsPlaced := 0 } := by
  rw [rget, init_robots, getD_range_map _ _ _ _ h]

/-- Main robots of the roster sit at strictly increasing axis positions:
index order is axis order. -/
theorem init_robots_axis_lt (n b : ℕ) (W : ℚ) (hW : 0 < W) (i j : ℕ)
    (hij : i < j) (hj : j < n) :
    (rget (init_robots n b W) i).axis < (rget (init_robots n b W) j).axis := by
  rw [rget_init_robots n b W i (by omega), rget_init_robots n b W j (by omega),
    if_pos (by omega), if_pos hj]
  have hn0 : (0 : ℚ) < (n : ℚ) := by
    have hn : 0 < n := by omega
    exact_mod_cast hn
  have hcast : (i : ℚ) + 1 / 2 < (j : ℚ) + 1 / 2 :=
    add_lt_add_right (Nat.cast_lt.mpr hij) _
  exact mul_lt_mul_of_pos_right hcast (div_pos hW hn0)

/-- C4: for a fresh box processed by the batch estimator with the computed
`mangos_per_station` capacity: the capacity is at least 1; the final
labeled count equals `min(numItems, A * itemsPerStation)` where `A` is the
number of visited robots that are neither Disabled nor failed (hence
`labeledCount ≤ numItems`); exactly the array-order prefix of that length
is labeled (items are taken in ascending array-index order); every robot
labels at most `itemsPerStation` items; and the roster's main robots have
strictly increasing axis positions, so the ascending-index visit order of
the loop is ascending axis order. -/
theorem batch_allocation_spec (robots : List Robot) (ms ms' : List BMango)
    (spacing X Z speed : ℚ) (station lc A : ℕ)
    (hstation : station = (mangos_per_station spacing X Z speed).toNat)
    (hrun : processBoxRobots ms.length station robots ms 0 = (ms', lc, A))
    (hfresh : ∀ m ∈ ms, m.state = .unlabeled ∧ m.labeledBy = -1)
    (hnodup : (robots.map Robot.id).Nodup) :
    1 ≤ station ∧
    lc = min ms.length (A * station) ∧
    lc ≤ ms.length ∧
    (∀ i, i < ms.length → (mstate ms' i = .labeled ↔ i < lc)) ∧
    (∀ rid, countBy rid ms' ≤ station) ∧
    (∀ (n b : ℕ) (W : ℚ), 0 < W → ∀ i j, i < j → j < n →
      (rget (init_robots n b W) i).axis < (rget (init_robots n b W) j).axis) := by
  have hst1 : 1 ≤ station := by
    rw [hstation]
    simp only [mangos_per_station]
    omega
  have hpl0 : PrefixLabeled 0 ms :=
    prefixLabeled_zero ms (fun m hm => (hfresh m hm).1)
  obtain ⟨h1, h2, h3⟩ :=
    process_capacity station hst1 robots ms.length ms 0 rfl hpl0
  rw [hrun] at h1 h2 h3
  dsimp only at h1 h2 h3
  rw [Nat.zero_add] at h1
  refine ⟨hst1, h1, ?_, ?_, ?_,
    fun n b W hW i j hij hj => init_robots_axis_lt n b W hW i j hij hj⟩
  · rw [h1]
    exact Nat.min_le_left _ _
  · intro i hi
    have := h3.2 i (by rw [h2]; exact hi)
    exact this.1
  · intro rid
    have hc0 : countBy rid ms = 0 :=
      countBy_eq_zero rid ms (fun m hm => (hfresh m hm).2)
    have := processBoxRobots_countBy ms.length station rid robots ms 0 hnodup
    rw [hrun, hc0] at this
    dsimp only at this
    split at this <;> omega

/-- Witness for C4: one active robot, a fresh two-item box, default
simulator parameters (spacing 75, X 10, Z 50, robot speed 5) giving
station capacity 1. -/
theorem batch_allocation_spec_witness :
    (1 = (mangos_per_station (75 : ℚ) 10 50 5).toNat ∧
      processBoxRobots 2 1 [defaultRobot]
          [{ state := .unlabeled, labeledBy := -1 },
           { state := .unlabeled, labeledBy := -1 }] 0 =
        ([{ state := .labeled, labeledBy := 0 },
          { state := .unlabeled, labeledBy := -1 }], 1, 1)) ∧
    (1 = min 2 (1 * 1) ∧
      ∀ rid, countBy rid
          [{ state := .labeled, labeledBy := 0 },
           ({ state := .unlabeled, labeledBy := -1 } : BMango)] ≤ 1) := by
  have hstation : (1 : ℕ) = (mangos_per_station (75 : ℚ) 10 50 5).toNat := by
    norm_num [mangos_per_station, cTrunc]
  have happ := batch_allocation_spec [defaultRobot]
    [{ state := .unlabeled, labeledBy := -1 },
     { state := .unlabeled, labeledBy := -1 }]
    [{ state := .labeled, labeledBy := 0 },
     { state := .unlabeled, labeledBy := -1 }]
    75 10 50 5 1 1 1 hstation (by decide) (by decide) (by decide)
  exact ⟨⟨hstation, by decide⟩, happ.2.1, happ.2.2.2.2.1⟩

/-! ### Station capacity versus the required-robot estimator (C5) -/

/-- Counterexample to C5 as stated: at the simulator's default parameters
(W = 300, 4 robots so spacing = 75, X = 10, Z = 50, robot speed = Z/10 = 5)
the batch estimator's per-station capacity is 1 while the §4.2 estimator's
items-per-robot is 2 — the two derivations are not the same. -/
theorem station_capacity_counterexample :
    mangos_per_station (75 : ℚ) 10 50 5 = 1 ∧
    mangos_per_robot_required (75 : ℚ) 10 50 5 = 2 :=
  ⟨by norm_num [mangos_per_station, cTrunc],
    by norm_num [mangos_per_robot_required, cTrunc]⟩

theorem cTrunc_mono_of_nonneg {a b : ℚ} (ha : 0 ≤ a) (hab : a ≤ b) :
    cTrunc a ≤ cTrunc b := by
  rw [cTrunc, cTrunc, if_pos ha, if_pos (le_trans ha hab)]
  exact Int.floor_le_floor hab

/-- C5 (amended): the batch estimator's per-station capacity is derived
with an average time-per-item of `Z / robotSpeed / 1.5` — exactly twice
the §4.2 estimator's `(Z/3) / robotSpeed` — so for positive parameters,
`itemsPerStation = max(1, trunc(window / (2 · (Z/3) / robotSpeed)))`,
which is at most (and in general not equal to) the §4.2 items-per-robot
`max(1, trunc(window / ((Z/3) / robotSpeed)))`. -/
theorem station_capacity_relation (spacing X Z speed : ℚ)
    (hsp : 0 < spacing) (hX : 0 < X) (hZ : 0 < Z) (hspeed : 0 < speed) :
    Z / speed / (3 / 2) = 2 * ((Z / 3) / speed) ∧
    mangos_per_station spacing X Z speed ≤
      mangos_per_robot_required spacing X Z speed := by
  constructor
  · field_simp
    ring
  · have hw : 0 < spacing / X := div_pos hsp hX
    have ht : 0 < (Z / 3) / speed := div_pos (by linarith) hspeed
    have ht2 : 0 < Z / speed / (3 / 2) := by positivity
    have hq1 : 0 ≤ (spacing / X) / (Z / speed / (3 / 2)) :=
      le_of_lt (div_pos hw ht2)
    have key : (Z / 3) / speed ≤ Z / speed / (3 / 2) := by
      rw [div_div, div_div, div_le_div_iff (by positivity) (by positivity)]
      nlinarith [mul_pos hZ hspeed]
    have hle : (spacing / X) / (Z / speed / (3 / 2)) ≤
        (spacing / X) / ((Z / 3) / speed) :=
      div_le_div_of_nonneg_left (le_of_lt hw) ht key
    exact max_le_max (le_refl 1) (cTrunc_mono_of_nonneg hq1 hle)

/-- Witness for the amended C5 at the default parameters. -/
theorem station_capacity_relation_witness :
    ((0 : ℚ) < 75 ∧ (0 : ℚ) < 10 ∧ (0 : ℚ) < 50 ∧ (0 : ℚ) < 5) ∧
    ((50 : ℚ) / 5 / (3 / 2) = 2 * ((50 / 3) / 5) ∧
      mangos_per_station (75 : ℚ) 10 50 5 ≤
        mangos_per_robot_required (75 : ℚ) 10 50 5) :=
  ⟨⟨by norm_num, by norm_num, by norm_num, by norm_num⟩,
    station_capacity_relation 75 10 50 5 (by norm_num) (by norm_num)
      (by norm_num) (by norm_num)⟩

/-! ### Backup activation (C6) -/

theorem rget_cons_zero (r : Robot) (rs : List Robot) : rget (r :: rs) 0 = r :=
  rfl

theorem rget_cons_succ (r : Robot) (rs : List Robot) (k : ℕ) :
    rget (r :: rs) (k + 1) = rget rs k := rfl

theorem rget_drop (l : List Robot) (n j : ℕ) :
    rget (l.drop n) j = rget l (n + j) := by
  rw [rget, rget, List.getD_eq_getElem?_getD, List.getD_eq_getElem?_getD,
    List.getElem?_drop]

theorem findDisabledBackup_none (l : List Robot)
    (h : findDisabledBackup l = none) :
    ∀ k, k < l.length →
      ¬((rget l k).isBackup = true ∧ (rget l k).state = .disabled) := by
  induction l with
  | nil => intro k hk; simp at hk
  | cons r rs ih =>
    intro k hk
    rw [findDisabledBackup] at h
    by_cases hp : r.isBackup = true ∧ r.state = .disabled
    · rw [if_pos hp] at h
      exact Option.noConfusion h
    · rw [if_neg hp] at h
      have hrs : findDisabledBackup rs = none := by
        cases hfd : findDisabledBackup rs with
        | none => rfl
        | some j => rw [hfd] at h; exact Option.noConfusion h
      cases k with
      | zero => rw [rget_cons_zero]; exact hp
      | succ k' =>
        rw [rget_cons_succ]
        exact ih hrs k' (by simpa using hk)

theorem findDisabledBackup_some (l : List Robot) (j : ℕ)
    (h : findDisabledBackup l = some j) :
    j < l.length ∧
    ((rget l j).isBackup = true ∧ (rget l j).state = .disabled) ∧
    ∀ k, k < j →
      ¬((rget l k).isBackup = true ∧ (rget l k).state = .disabled) := by
  induction l generalizing j with
  | nil => exact Option.noConfusion h
  | cons r rs ih =>
    rw [findDisabledBackup] at h
    by_cases hp : r.isBackup = true ∧ r.state = .disabled
    · rw [if_pos hp] at h
      obtain rfl : 0 = j := Option.some.inj h
      exact ⟨Nat.succ_pos _, by rw [rget_cons_zero]; exact hp,
        fun k hk => absurd hk (Nat.not_lt_zero k)⟩
    · rw [if_neg hp] at h
      cases hfd : findDisabledBackup rs with
      | none => rw [hfd] at h; exact Option.noConfusion h
      | some j' =>
        rw [hfd] at h
        obtain rfl : j' + 1 = j := Option.some.inj h
        obtain ⟨h1, h2, h3⟩ := ih j' hfd
        refine ⟨by simpa using h1, by rw [rget_cons_succ]; exact h2, ?_⟩
        intro k hk
        cases k with
        | zero => rw [rget_cons_zero]; exact hp
        | succ k' =>
          rw [rget_cons_succ]
          exact h3 k' (by omega)

theorem findDisabledBackup_isSome (l : List Robot) (k : ℕ)
    (hk : k < l.length)
    (hfree : (rget l k).isBackup = true ∧ (rget l k).state = .disabled) :
    ∃ j, findDisabledBackup l = some j := by
  induction l generalizing k with
  | nil => simp at hk
  | cons r rs ih =>
    rw [findDisabledBackup]
    by_cases hp : r.isBackup = true ∧ r.state = .disabled
    · exact ⟨0, by rw [if_pos hp]⟩
    · rw [if_neg hp]
      cases k with
      | zero => exact absurd (by rwa [rget_cons_zero] at hfree) hp
      | succ k' =>
        rw [rget_cons_succ] at hfree
        obtain ⟨j, hj⟩ := ih k' (by simpa using hk) hfree
        exact ⟨j + 1, by rw [hj]; rfl⟩

/-- C6: on a failure notification the backup manager scans indices
`numRobots, numRobots+1, ...` in ascending order and binds exactly the
first robot that is a Disabled backup: that robot's axis becomes the
failed robot's axis, its state becomes Backup, its `replacing` field
records the failed robot, and the activation counter is incremented; all
other robots are untouched. If no Disabled backup exists, nothing
changes. An activation never touches a robot whose state is not Disabled,
so a backup bound once (state Backup) is never selected again. -/
theorem activate_backup_spec (numRobots failedId : ℕ)
    (robots robots' : List Robot) (acts acts' : ℕ)
    (hrun : activate_backup_robot numRobots failedId robots acts =
      (robots', acts')) :
    ((∀ k, numRobots ≤ k → k < robots.length →
        ¬((rget robots k).isBackup = true ∧
          (rget robots k).state = .disabled)) →
      robots' = robots ∧ acts' = acts) ∧
    (∀ k, numRobots ≤ k → k < robots.length →
      (rget robots k).isBackup = true → (rget robots k).state = .disabled →
      ∃ i0, numRobots ≤ i0 ∧ i0 < robots.length ∧
        (rget robots i0).isBackup = true ∧
        (rget robots i0).state = .disabled ∧
        (∀ k', numRobots ≤ k' → k' < i0 →
          ¬((rget robots k').isBackup = true ∧
            (rget robots k').state = .disabled)) ∧
        robots' = robots.set i0
          { rget robots i0 with
              state := .backup, replacing := (failedId : ℤ)
              axis := (rget robots failedId).axis } ∧
        acts' = acts + 1 ∧
        (rget robots' i0).state = .backup ∧
        (rget robots' i0).replacing = (failedId : ℤ) ∧
        (rget robots' i0).axis = (rget robots failedId).axis ∧
        (∀ j, j ≠ i0 → rget robots' j = rget robots j)) ∧
    (∀ (rs : List Robot) (nR fid a : ℕ) (i : ℕ),
      (rget rs i).state ≠ .disabled →
      rget (activate_backup_robot nR fid rs a).1 i = rget rs i) := by
  refine ⟨?_, ?_, ?_⟩
  · intro hno
    rw [activate_backup_robot, backupScan] at hrun
    cases hfd : findDisabledBackup (robots.drop numRobots) with
    | none =>
      rw [hfd] at hrun
      exact ⟨(Prod.mk.injEq _ _ _ _ ▸ hrun).1.symm,
        (Prod.mk.injEq _ _ _ _ ▸ hrun).2.symm⟩
    | some j =>
      obtain ⟨hj1, hj2, _⟩ :=
        findDisabledBackup_some (robots.drop numRobots) j hfd
      rw [rget_drop] at hj2
      rw [List.length_drop] at hj1
      exact absurd hj2 (hno (numRobots + j) (by omega) (by omega))
  · intro k hk1 hk2 hkb hkd
    rw [activate_backup_robot, backupScan] at hrun
    have hkdrop : (rget (robots.drop numRobots) (k - numRobots)).isBackup =
        true ∧ (rget (robots.drop numRobots) (k - numRobots)).state =
        .disabled := by
      rw [rget_drop]
      have : numRobots + (k - numRobots) = k := by omega
      rw [this]
      exact ⟨hkb, hkd⟩
    obtain ⟨j, hj⟩ := findDisabledBackup_isSome (robots.drop numRobots)
      (k - numRobots) (by rw [List.length_drop]; omega) hkdrop
    obtain ⟨hj1, hj2, hj3⟩ :=
      findDisabledBackup_some (robots.drop numRobots) j hj
    rw [rget_drop] at hj2
    rw [List.length_drop] at hj1
    rw [hj] at hrun
    obtain ⟨hrob, hacts⟩ :
        robots.set (numRobots + j)
            { rget robots (numRobots + j) with
                state := .backup, replacing := (failedId : ℤ)
                axis := (rget robots failedId).axis } = robots' ∧
          acts + 1 = acts' := by
      exact ⟨(Prod.mk.injEq _ _ _ _ ▸ hrun).1, (Prod.mk.injEq _ _ _ _ ▸ hrun).2⟩
    have hlen : numRobots + j < robots.length := by omega
    have hget : rget robots' (numRobots + j) =
        { rget robots (numRobots + j) with
            state := .backup, replacing := (failedId : ℤ)
            axis := (rget robots failedId).axis } := by
      rw [← hrob, rget]
      exact getD_set_self _ _ _ _ hlen
    refine ⟨numRobots + j, by omega, hlen, hj2.1, hj2.2, ?_, hrob.symm,
      hacts.symm, by rw [hget], by rw [hget], by rw [hget], ?_⟩
    · intro k' hk'1 hk'2
      have := hj3 (k' - numRobots) (by omega)
      rw [rget_drop] at this
      have heq : numRobots + (k' - numRobots) = k' := by omega
      rw [heq] at this
      exact this
    · intro jj hjj
      rw [← hrob, rget, rget]
      exact getD_set_of_ne _ _ _ (fun h => hjj h.symm)
  · intro rs nR fid a i hstate
    rw [activate_backup_robot, backupScan]
    cases hfd : findDisabledBackup (rs.drop nR) with
    | none => rfl
    | some j =>
      obtain ⟨hj1, hj2, _⟩ := findDisabledBackup_some (rs.drop nR) j hfd
      rw [rget_drop] at hj2
      have hne : i ≠ nR + j := by
        intro hEq
        rw [← hEq] at hj2
        exact hstate hj2.2
      dsimp only
      rw [rget, rget]
      exact getD_set_of_ne _ _ _ (fun h => hne h.symm)

/-- Witness for C6: a roster with one main robot and two disabled
backups; the first backup (index 1) is bound. -/
theorem activate_backup_spec_witness :
    (activate_backup_robot 1 0
        [{ id := 0, axis := 150, state := .failed, isBackup := false,
           hasFailed := true, replacing := -1, labelsPlaced := 0 },
         { id := 1, axis := 0, state := .disabled, isBackup := true,
           hasFailed := false, replacing := -1, labelsPlaced := 0 },
         { id := 2, axis := 0, state := .disabled, isBackup := true,
           hasFailed := false, replacing := -1, labelsPlaced := 0 }] 0 =
      ([{ id := 0, axis := 150, state := .failed, isBackup := false,
          hasFailed := true, replacing := -1, labelsPlaced := 0 },
        { id := 1, axis := 150, state := .backup, isBackup := true,
          hasFailed := false, replacing := 0, labelsPlaced := 0 },
        { id := 2, axis := 0, state := .disabled, isBackup := true,
          hasFailed := false, replacing := -1, labelsPlaced := 0 }],
        1)) ∧
    rget (activate_backup_robot 1 5
        [{ id := 0, axis := 150, state := .failed, isBackup := false,
           hasFailed := true, replacing := -1, labelsPlaced := 0 },
         { id := 1, axis := 150, state := .backup, isBackup := true,
           hasFailed := false, replacing := 0, labelsPlaced := 0 },
         { id := 2, axis := 0, state := .disabled, isBackup := true,
           hasFailed := false, replacing := -1, labelsPlaced := 0 }] 0).1 1 =
      rget
        [{ id := 0, axis := 150, state := .failed, isBackup := false,
           hasFailed := true, replacing := -1, labelsPlaced := 0 },
         { id := 1, axis := 150, state := .backup, isBackup := true,
           hasFailed := false, replacing := 0, labelsPlaced := 0 },
         { id := 2, axis := 0, state := .disabled, isBackup := true,
           hasFailed := false, replacing := -1, labelsPlaced := 0 }] 1 :=
  ⟨by rfl,
    (activate_backup_spec 1 0
      [{ id := 0, axis := 150, state := .failed, isBackup := false,
         hasFailed := true, replacing := -1, labelsPlaced := 0 },
       { id := 1, axis := 0, state := .disabled, isBackup := true,
         hasFailed := false, replacing := -1, labelsPlaced := 0 },
       { id := 2, axis := 0, state := .disabled, isBackup := true,
         hasFailed := false, replacing := -1, labelsPlaced := 0 }]
      [{ id := 0, axis := 150, state := .failed, isBackup := false,
         hasFailed := true, replacing := -1, labelsPlaced := 0 },
       { id := 1, axis := 150, state := .backup, isBackup := true,
         hasFailed := false, replacing := 0, labelsPlaced := 0 },
       { id := 2, axis := 0, state := .disabled, isBackup := true,
         hasFailed := false, replacing := -1, labelsPlaced := 0 }]
      0 1 (by rfl)).2.2 _ 1 5 0 1 (by decide)⟩

/-! ### Effective time window (C7) -/

/-- C7 evaluation at the failing input: with 1 main robot and 1 backup
(W = 300, X = 10), the last main robot's computed window is negative —
`calculate_effective_time` takes the "next axis" from the unactivated
backup robot sitting at axis 0 because its bound check uses the total
roster size `g_num_robots` (backups included) instead of the main-robot
count. The spec's value, extending to the belt's far end, is
`(300 - 150) / 10 = 15`; with zero backups the code does produce 15. -/
theorem effective_time_backup_bug :
    calculate_effective_time (init_robots 1 1 300) 300 10 0 = -15 ∧
    (300 - (rget (init_robots 1 1 300) 0).axis) / 10 = (15 : ℚ) ∧
    calculate_effective_time (init_robots 1 0 300) 300 10 0 = 15 := by
  refine ⟨?_, ?_, ?_⟩
  · norm_num [calculate_effective_time, init_robots, rget, List.range_succ]
  · norm_num [init_robots, rget, List.range_succ]
  · norm_num [calculate_effective_time, init_robots, rget, List.range_succ]

/-! ### Initial failure pass (C9) -/

theorem backupScan_no_backups (numRobots : ℕ) (failedId : ℤ)
    (failedAxis : ℚ) (robots : List Robot) (acts : ℕ)
    (hlen : robots.length ≤ numRobots) :
    backupScan numRobots failedId failedAxis robots acts = (robots, acts) := by
  rw [backupScan]
  have hdrop : robots.drop numRobots = [] :=
    List.drop_eq_nil_of_le hlen
  rw [hdrop]
  rfl

theorem failLoop_all_fail (p : ℚ) (draws : ℕ → ℚ) (numRobots : ℕ)
    (hdraws : ∀ d, draws d < p) :
    ∀ (fuel i d : ℕ) (robots : List Robot) (fails acts : ℕ),
      numRobots ≤ i + fuel →
      robots.length = numRobots →
      (∀ j, j < numRobots → (rget robots j).isBackup = false) →
      (failLoop p draws numRobots fuel i d robots fails acts).1.length =
        numRobots ∧
      (failLoop p draws numRobots fuel i d robots fails acts).2.1 =
        fails + (numRobots - i) ∧
      (failLoop p draws numRobots fuel i d robots fails acts).2.2 = acts ∧
      ∀ j, rget (failLoop p draws numRobots fuel i d robots fails acts).1 j =
        if i ≤ j ∧ j < numRobots then markFailed (rget robots j)
        else rget robots j := by
  intro fuel
  induction fuel with
  | zero =>
    intro i d robots fails acts hfuel hlen hnb
    rw [failLoop]
    dsimp only
    refine ⟨hlen, by omega, rfl, fun j => ?_⟩
    rw [if_neg (by omega)]
  | succ fuel ih =>
    intro i d robots fails acts hfuel hlen hnb
    rw [failLoop]
    by_cases hin : i < numRobots
    · rw [if_pos hin]
      rw [if_neg (by rw [hnb i hin]; exact Bool.false_ne_true)]
      rw [if_pos (hdraws d)]
      have hlen' :
          (robots.set i (markFailed (rget robots i))).length = numRobots := by
        rw [List.length_set]; exact hlen
      rw [backupScan_no_backups _ _ _ _ _ (le_of_eq hlen')]
      dsimp only
      have hnb' : ∀ j, j < numRobots →
          (rget (robots.set i (markFailed (rget robots i))) j).isBackup =
            false := by
        intro j hj
        by_cases hij : i = j
        · subst hij
          rw [rget, getD_set_self _ _ _ _ (by omega)]
          exact hnb i hin
        · rw [rget, getD_set_of_ne _ _ _ hij]
          exact hnb j hj
      obtain ⟨ih1, ih2, ih3, ih4⟩ := ih (i + 1) (d + 1)
        (robots.set i (markFailed (rget robots i))) (fails + 1) acts
        (by omega) hlen' hnb'
      refine ⟨ih1, by omega, ih3, fun j => ?_⟩
      rw [ih4 j]
      by_cases hij : j = i
      · subst hij
        rw [if_neg (by omega), if_pos (by omega), rget,
          getD_set_self _ _ _ _ (by omega)]
      · by_cases hjr : i + 1 ≤ j ∧ j < numRobots
        · rw [if_pos hjr, if_pos (by omega), rget, rget,
            getD_set_of_ne _ _ _ (fun h => hij h.symm)]
          rfl
        · rw [if_neg hjr, if_neg (by omega), rget, rget,
            getD_set_of_ne _ _ _ (fun h => hij h.symm)]
          rfl
    · rw [if_neg hin]
      dsimp only
      refine ⟨hlen, by omega, rfl, fun j => ?_⟩
      rw [if_neg (by omega)]

/-- C9 (amended): with failure probability 1.0, zero backups, and every
per-robot failure draw strictly below 1 (that is, `rand() < RAND_MAX` —
the draw `rand()/RAND_MAX = 1.0` is the one boundary case where
`r < 1.0` is false and the robot survives), every main robot ends the
failure pass with `has_failed` latched and state Failed, the recorded
failure count equals the number of active non-backup robots, no backup is
activated, and every box processed by the batch loop afterwards keeps
`labeled_count = 0`. -/
theorem failure_one_all_fail (numRobots : ℕ) (W : ℚ) (draws : ℕ → ℚ)
    (robots' : List Robot) (fails acts : ℕ)
    (hrun : failure_phase 1 draws numRobots (init_robots numRobots 0 W) =
      (robots', fails, acts))
    (hdraws : ∀ d, 0 ≤ draws d ∧ draws d < 1) :
    fails = numRobots ∧ acts = 0 ∧
    (∀ j, j < numRobots →
      (rget robots' j).hasFailed = true ∧ (rget robots' j).state = .failed) ∧
    (∀ (n station lc : ℕ) (ms : List BMango),
      processBoxRobots n station robots' ms lc = (ms, lc, 0)) := by
  have hlen : (init_robots numRobots 0 W).length = numRobots := by
    rw [init_robots, List.length_map, List.length_range, Nat.add_zero]
  have hnb : ∀ j, j < numRobots →
      (rget (init_robots numRobots 0 W) j).isBackup = false := by
    intro j hj
    rw [rget_init_robots numRobots 0 W j (by omega), if_pos hj]
  obtain ⟨h1, h2, h3, h4⟩ := failLoop_all_fail 1 draws numRobots
    (fun d => (hdraws d).2) numRobots 0 0 (init_robots numRobots 0 W) 0 0
    (by omega) hlen hnb
  rw [failure_phase, if_pos (by norm_num)] at hrun
  rw [hrun] at h1 h2 h3 h4
  dsimp only at h1 h2 h3 h4
  have hfailed : ∀ j, j < numRobots →
      (rget robots' j).hasFailed = true ∧ (rget robots' j).state = .failed := by
    intro j hj
    rw [h4 j, if_pos (by omega)]
    exact ⟨rfl, rfl⟩
  refine ⟨by omega, h3, hfailed, ?_⟩
  intro n station lc ms
  apply processBoxRobots_skips
  intro r hr
  obtain ⟨k, hk, hkr⟩ := List.getElem_of_mem hr
  have hklen : k < numRobots := by rw [← h1]; exact hk
  have : rget robots' k = r := by
    rw [rget, List.getD_eq_getElem?_getD, List.getElem?_eq_getElem hk, hkr]
    rfl
  right
  rw [← this]
  exact (hfailed k hklen).1

/-- Counterexample to C9 as stated: with failure probability 1.0 and the
draw stream constantly `1` (the C value `rand() = RAND_MAX`, so
`r = 1.0` and `r < 1.0` is false), the single main robot survives the
failure pass: zero failures are recorded and the robot is still Idle with
`has_failed = false`, so the box is then labeled rather than missed. -/
theorem failure_one_boundary_counterexample :
    failure_phase 1 (fun _ => 1) 1 (init_robots 1 0 300) =
      (init_robots 1 0 300, 0, 0) ∧
    (rget (init_robots 1 0 300) 0).hasFailed = false ∧
    (rget (init_robots 1 0 300) 0).state = .idle ∧
    processBoxRobots 1 1 (init_robots 1 0 300)
        [{ state := .unlabeled, labeledBy := -1 }] 0 =
      ([{ state := .labeled, labeledBy := 0 }], 1, 1) :=
  ⟨rfl, rfl, rfl, rfl⟩

/-- Witness for the amended C9: two main robots, draw stream constantly
`1/2 < 1`. -/
theorem failure_one_all_fail_witness :
    (∀ d : ℕ, 0 ≤ (fun _ => (1 : ℚ) / 2) d ∧
      (fun _ => (1 : ℚ) / 2) d < 1) ∧
    (failure_phase 1 (fun _ => 1 / 2) 2 (init_robots 2 0 300)).2.1 = 2 ∧
    (failure_phase 1 (fun _ => 1 / 2) 2 (init_robots 2 0 300)).2.2 = 0 ∧
    ∀ j, j < 2 →
      (rget (failure_phase 1 (fun _ => 1 / 2) 2
        (init_robots 2 0 300)).1 j).hasFailed = true ∧
      (rget (failure_phase 1 (fun _ => 1 / 2) 2
        (init_robots 2 0 300)).1 j).state = .failed := by
  have hdraws : ∀ d : ℕ, 0 ≤ (fun _ => (1 : ℚ) / 2) d ∧
      (fun _ => (1 : ℚ) / 2) d < 1 := fun d => ⟨by norm_num, by norm_num⟩
  have happ := failure_one_all_fail 2 300 (fun _ => 1 / 2)
    (failure_phase 1 (fun _ => 1 / 2) 2 (init_robots 2 0 300)).1
    (failure_phase 1 (fun _ => 1 / 2) 2 (init_robots 2 0 300)).2.1
    (failure_phase 1 (fun _ => 1 / 2) 2 (init_robots 2 0 300)).2.2
    rfl hdraws
  exact ⟨hdraws, happ.1, happ.2.1, happ.2.2.1⟩

/-! ### Box generation (C8) -/

theorem randomRange_mem (lo hi r : ℚ) (h0 : 0 ≤ r) (h1 : r ≤ 1)
    (hlh : lo ≤ hi) :
    lo ≤ randomRange lo hi r ∧ randomRange lo hi r ≤ hi := by
  rw [randomRange]
  constructor
  · nlinarith
  · nlinarith

theorem posValid_spec (s x y : ℚ) (placed : List (ℚ × ℚ))
    (h : posValid s x y placed = true) :
    ∀ p ∈ placed, s ≤ sqDist x y p.1 p.2 := by
  rw [posValid, List.all_eq_true] at h
  intro p hp
  have := h p hp
  rw [decide_eq_true_eq] at this
  exact not_lt.mp this

theorem sampleAttempts_spec (lo hi s : ℚ) (rng : ℕ → ℚ)
    (placed : List (ℚ × ℚ)) (hr : ∀ n, 0 ≤ rng n ∧ rng n ≤ 1)
    (hlh : lo ≤ hi) :
    ∀ (fuel idx : ℕ),
      lo ≤ (sampleAttempts lo hi s rng placed idx fuel).1 ∧
      (sampleAttempts lo hi s rng placed idx fuel).1 ≤ hi ∧
      lo ≤ (sampleAttempts lo hi s rng placed idx fuel).2.1 ∧
      (sampleAttempts lo hi s rng placed idx fuel).2.1 ≤ hi ∧
      ((sampleAttempts lo hi s rng placed idx fuel).2.2.1 = true →
        posValid s (sampleAttempts lo hi s rng placed idx fuel).1
          (sampleAttempts lo hi s rng placed idx fuel).2.1 placed = true) := by
  intro fuel
  induction fuel with
  | zero =>
    intro idx
    exact ⟨le_refl lo, hlh, le_refl lo, hlh, fun h => Bool.noConfusion h⟩
  | succ fuel ih =>
    intro idx
    have hx := randomRange_mem lo hi (rng idx) (hr idx).1 (hr idx).2 hlh
    have hy := randomRange_mem lo hi (rng (idx + 1)) (hr (idx + 1)).1
      (hr (idx + 1)).2 hlh
    rw [sampleAttempts]
    by_cases hv : posValid s (randomRange lo hi (rng idx))
        (randomRange lo hi (rng (idx + 1))) placed = true
    · rw [if_pos hv]
      exact ⟨hx.1, hx.2, hy.1, hy.2, fun _ => hv⟩
    · rw [if_neg hv]
      by_cases hf : fuel = 0
      · rw [if_pos hf]
        exact ⟨hx.1, hx.2, hy.1, hy.2, fun h => Bool.noConfusion h⟩
      · rw [if_neg hf]
        exact ih (idx + 2)

theorem placeMangos_spec (lo hi s : ℚ) (rng : ℕ → ℚ)
    (hr : ∀ n, 0 ≤ rng n ∧ rng n ≤ 1) (hlh : lo ≤ hi) :
    ∀ (k idx : ℕ) (acc : List PMango),
      (∀ p ∈ acc, lo ≤ p.x ∧ p.x ≤ hi ∧ lo ≤ p.y ∧ p.y ≤ hi) →
      List.Pairwise
        (fun a b => b.valid = true → s ≤ sqDist a.x a.y b.x b.y) acc →
      (∀ p ∈ placeMangos lo hi s rng k idx acc,
        lo ≤ p.x ∧ p.x ≤ hi ∧ lo ≤ p.y ∧ p.y ≤ hi) ∧
      List.Pairwise
        (fun a b => b.valid = true → s ≤ sqDist a.x a.y b.x b.y)
        (placeMangos lo hi s rng k idx acc) := by
  intro k
  induction k with
  | zero => intro idx acc hb hp; exact ⟨hb, hp⟩
  | succ k ih =>
    intro idx acc hb hp
    rw [placeMangos]
    have hs := sampleAttempts_spec lo hi s rng (acc.map fun p => (p.x, p.y))
      hr hlh 100 idx
    apply ih
    · intro p hpmem
      rw [List.mem_append] at hpmem
      rcases hpmem with h | h
      · exact hb p h
      · rw [List.mem_singleton] at h
        subst h
        exact ⟨hs.1, hs.2.1, hs.2.2.1, hs.2.2.2.1⟩
    · rw [List.pairwise_append]
      refine ⟨hp, List.pairwise_singleton _ _, ?_⟩
      intro a ha b hbmem
      rw [List.mem_singleton] at hbmem
      subst hbmem
      intro hvalid
      have hpv := hs.2.2.2.2 hvalid
      have := posValid_spec s _ _ _ hpv (a.x, a.y)
        (List.mem_map_of_mem (fun p => (p.x, p.y)) ha)
      have hsym : sqDist (sampleAttempts lo hi s rng
          (acc.map fun p => (p.x, p.y)) idx 100).1
          (sampleAttempts lo hi s rng
            (acc.map fun p => (p.x, p.y)) idx 100).2.1 a.x a.y =
          sqDist a.x a.y (sampleAttempts lo hi s rng
            (acc.map fun p => (p.x, p.y)) idx 100).1
          (sampleAttempts lo hi s rng
            (acc.map fun p => (p.x, p.y)) idx 100).2.1 := by
        rw [sqDist, sqDist]
        ring
      rw [hsym] at this
      exact this

theorem random_int_mem (lo hi k : ℕ) (h : lo ≤ hi) :
    lo ≤ random_int lo hi k ∧ random_int lo hi k ≤ hi := by
  rw [random_int]
  have hmod : k % (hi - lo + 1) < hi - lo + 1 := Nat.mod_lt k (by omega)
  omega

/-- C8: every generated box has an item count in `[N_min, N_max]`; every
item's coordinates lie in `[-Z/2 + Z/10, Z/2 - Z/10]²`; and for every pair
of items, if the later-placed item's rejection sampling terminated inside
the 100-attempt cap (`valid = true`) then the pair is at squared distance
at least `(Z/15)²` (equivalently, Euclidean distance at least `Z/15`);
items whose cap was exhausted keep the last sampled position and only the
in-bounds guarantee. -/
theorem generate_box_spec (Z : ℚ) (Nmin Nmax k : ℕ) (rng : ℕ → ℚ)
    (hZ : 0 < Z) (hN : Nmin ≤ Nmax) (hr : ∀ n, 0 ≤ rng n ∧ rng n ≤ 1) :
    Nmin ≤ (generate_box Z Nmin Nmax k rng).1 ∧
    (generate_box Z Nmin Nmax k rng).1 ≤ Nmax ∧
    (∀ p ∈ (generate_box Z Nmin Nmax k rng).2,
      -(Z / 2) + Z / 10 ≤ p.x ∧ p.x ≤ Z / 2 - Z / 10 ∧
      -(Z / 2) + Z / 10 ≤ p.y ∧ p.y ≤ Z / 2 - Z / 10) ∧
    List.Pairwise
      (fun a b => b.valid = true → (Z / 15) ^ 2 ≤ sqDist a.x a.y b.x b.y)
      (generate_box Z Nmin Nmax k rng).2 := by
  have hlh : -(Z / 2) + Z / 10 ≤ Z / 2 - Z / 10 := by linarith
  have hplace := placeMangos_spec (-(Z / 2) + Z / 10) (Z / 2 - Z / 10)
    ((Z / 15) ^ 2) rng hr hlh (random_int Nmin Nmax k) 0 []
    (fun p hp => absurd hp (List.not_mem_nil p)) List.Pairwise.nil
  have hnum := random_int_mem Nmin Nmax k hN
  exact ⟨hnum.1, hnum.2, hplace.1, hplace.2⟩

/-- Witness for C8: `Z = 50`, a single item (`N_min = N_max = 1`), the
all-zeros draw stream. -/
theorem generate_box_spec_witness :
    ((0 : ℚ) < 50 ∧ (1 : ℕ) ≤ 1 ∧
      (∀ n : ℕ, 0 ≤ (fun _ => (0 : ℚ)) n ∧ (fun _ => (0 : ℚ)) n ≤ 1)) ∧
    (1 ≤ (generate_box 50 1 1 0 (fun _ => 0)).1 ∧
      (generate_box 50 1 1 0 (fun _ => 0)).1 ≤ 1 ∧
      ∀ p ∈ (generate_box 50 1 1 0 (fun _ => 0)).2,
        -((50 : ℚ) / 2) + 50 / 10 ≤ p.x ∧ p.x ≤ 50 / 2 - 50 / 10 ∧
        -((50 : ℚ) / 2) + 50 / 10 ≤ p.y ∧ p.y ≤ 50 / 2 - 50 / 10) := by
  have hr : ∀ n : ℕ, 0 ≤ (fun _ => (0 : ℚ)) n ∧ (fun _ => (0 : ℚ)) n ≤ 1 :=
    fun n => ⟨le_refl 0, by norm_num⟩
  have happ := generate_box_spec 50 1 1 0 (fun _ => 0) (by norm_num)
    (le_refl 1) hr
  exact ⟨⟨by norm_num, le_refl 1, hr⟩, happ.1, happ.2.1, happ.2.2.1⟩

end MangoNeado
